import Mathlib

/-!
Verification of the HTTP server core of `portfolio-site-backend`
(`src/http_server/`): path normalisation, route compilation (glob → anchored
regex string), per-method route ordering, the per-connection reader loop with
its 8 KiB chunking and 1 MiB cap, the httparse-style head parser, and the
middleware/handler dispatcher.  All machine strings are modelled as `List Char`
(the byte inputs in the claims are ASCII); hash maps are modelled as
association lists with replace-on-insert semantics.
-/

namespace PortfolioBackend

/-- ASCII word character, the `\w` class of the `regex` crate restricted to
ASCII (all inputs in this development are ASCII): letters, digits, `_`. -/
def isWordChar (c : Char) : Bool := c.isAlphanum || c = '_'

/-- Character class of the `:[\w-]+` parameter token regex body. -/
def isParamChar (c : Char) : Bool := isWordChar c || c = '-'

/-- Fuel-driven body of `countSubstr`; the fuel is a termination device only
and is always supplied larger than the input length. -/
def countSubstrAux (pat : List Char) : Nat → List Char → Nat
  | 0, _ => 0
  | _ + 1, [] => 0
  | fuel + 1, c :: rest =>
    if pat.isPrefixOf (c :: rest) then
      1 + countSubstrAux pat fuel (rest.drop (pat.length - 1))
    else
      countSubstrAux pat fuel rest

/-- Count of non-overlapping occurrences of `pat` in `s`, scanning left to
right: model of Rust `str::matches(pat).count()`. -/
def countSubstr (pat s : List Char) : Nat :=
  countSubstrAux pat (s.length + 1) s

/-- Fuel-driven body of `replaceAll`; the fuel is a termination device only
and is always supplied larger than the input length. -/
def replaceAllAux (pat rep : List Char) : Nat → List Char → List Char
  | 0, s => s
  | _ + 1, [] => []
  | fuel + 1, c :: rest =>
    if pat.isPrefixOf (c :: rest) then
      rep ++ replaceAllAux pat rep fuel (rest.drop (pat.length - 1))
    else
      c :: replaceAllAux pat rep fuel rest

/-- Replace every non-overlapping occurrence of `pat` by `rep`, scanning left
to right: model of Rust `str::replace(pat, rep)`. -/
def replaceAll (pat rep s : List Char) : List Char :=
  replaceAllAux pat rep (s.length + 1) s

/-- Association-list insert with replace-on-existing-key: model of
`HashMap::insert` (key-to-value behaviour; bucket order is irrelevant to the
code's observable use). -/
def insertKV (k v : List Char) : List (List Char × List Char) → List (List Char × List Char)
  | [] => [(k, v)]
  | (k', v') :: rest => if k' = k then (k, v) :: rest else (k', v') :: insertKV k v rest

/-- `util.rs::normalise_path`: append a trailing `/` unless already present. -/
def normalise_path (p : List Char) : List Char :=
  if p.getLast? = some '/' then p else p ++ ['/']

/-- `util.rs::glob_to_regex`: escape `.`, expand `**` to `.+`, expand
slash-bounded `*` to `[^/]+`, expand remaining `*` to `[^/]+`, anchor. -/
def glob_to_regex (glob : List Char) : List Char :=
  let s := replaceAll ['.'] ['\\', '.'] glob
  let s := replaceAll ['*', '*'] ['.', '+'] s
  let s := replaceAll ['/', '*', '/'] ['/', '[', '^', '/', ']', '+', '/'] s
  let s := replaceAll ['*'] ['[', '^', '/', ']', '+'] s
  '^' :: s ++ ['$']

/-- One `(?:[^/]*/)` step of `util.rs::extract_nth_segment_from_url`'s regex:
consume everything up to and including the first `/` (the greedy `[^/]*`
cannot cross a `/`, so the repetition deterministically ends at the first
slash). `none` when no slash remains. -/
def dropSegment : List Char → Option (List Char)
  | [] => none
  | '/' :: rest => some rest
  | _ :: rest => dropSegment rest

/-- Maximal leading run of word characters: the `(\w+)` capture. -/
def takeWordRun : List Char → List Char
  | [] => []
  | c :: rest => if isWordChar c then c :: takeWordRun rest else []

/-- `util.rs::extract_nth_segment_from_url`: the regex
`^(?:[^/]*/){n}(\w+)` applied at the start of `url_path`. -/
def extract_nth_segment_from_url (url_path : List Char) (n : Nat) : Option (List Char) :=
  match n with
  | 0 =>
    let run := takeWordRun url_path
    if run.isEmpty then none else some run
  | n + 1 =>
    match dropSegment url_path with
    | some rest => extract_nth_segment_from_url rest n
    | none => none

/-- `server.rs::RouteParam`: a declared `:name` parameter and the count of
`/` characters preceding it in the registered (normalised) pattern. -/
structure RouteParam where
  num_slashes_before : Nat
  name : List Char
deriving DecidableEq, Repr

/-- Fuel-driven scan for `URI_PARAM_REGEX = :[\w-]+`, performing in one pass
what `Server::route` does with `find_iter` (collect `(slashes-before, name)`
per match) and `replace_all` (replace each match by `*`).  Matching is
leftmost, non-overlapping, maximal-munch, exactly as the regex engine behaves
on this pattern.  `fuel` is a termination device; it is called with more fuel
than the input length, which the scan can never exhaust. -/
def scanParamsAux : Nat → Nat → List Char → List RouteParam × List Char
  | 0, _, s => ([], s)
  | _ + 1, _, [] => ([], [])
  | fuel + 1, slashes, ':' :: rest =>
    match rest with
    | d :: rest' =>
      if isParamChar d then
        let run := rest.takeWhile isParamChar
        let after := rest.dropWhile isParamChar
        let (ps, out) := scanParamsAux fuel slashes after
        (⟨slashes, run⟩ :: ps, '*' :: out)
      else
        let (ps, out) := scanParamsAux fuel slashes (d :: rest')
        (ps, ':' :: out)
    | [] => ([], [':'])
  | fuel + 1, slashes, c :: rest =>
    let slashes' := if c = '/' then slashes + 1 else slashes
    let (ps, out) := scanParamsAux fuel slashes' rest
    (ps, c :: out)

/-- Parameter extraction and `:param → *` replacement of `Server::route`. -/
def scanParams (s : List Char) : List RouteParam × List Char :=
  scanParamsAux (s.length + 1) 0 s

/-- Token of the restricted regex dialect produced by `glob_to_regex`:
a literal character, `[^/]+`, or `.+` (in the `regex` crate `.` does not
match a newline by default). -/
inductive RTok where
  | lit (c : Char)
  | nonSlashPlus
  | anyPlus
deriving DecidableEq, Repr

/-- Lex the body of a compiled pattern (anchors stripped) into tokens.
`\c` is an escaped literal; every `.` produced by `glob_to_regex` is either
escaped or part of `.+`. -/
def lexPattern : List Char → List RTok
  | [] => []
  | '\\' :: c :: rest => .lit c :: lexPattern rest
  | '[' :: '^' :: '/' :: ']' :: '+' :: rest => .nonSlashPlus :: lexPattern rest
  | '.' :: '+' :: rest => .anyPlus :: lexPattern rest
  | c :: rest => .lit c :: lexPattern rest

/-- Backtracking matcher for the token dialect against a whole string:
semantics of the `regex` crate on the patterns `glob_to_regex` emits
(anchored, so `is_match` is a full-string match). -/
def matchToks : List RTok → List Char → Bool
  | [], s => s.isEmpty
  | .lit _ :: _, [] => false
  | .lit c :: ts, x :: xs => c = x && matchToks ts xs
  | .nonSlashPlus :: _, [] => false
  | .nonSlashPlus :: ts, x :: xs =>
    !(x = '/') && (matchToks ts xs || matchToks (.nonSlashPlus :: ts) xs)
  | .anyPlus :: _, [] => false
  | .anyPlus :: ts, x :: xs =>
    !(x = '\n') && (matchToks ts xs || matchToks (.anyPlus :: ts) xs)

/-- `Regex::new(&route.path).is_match(&request_path)` for a compiled route
pattern `^…$`: strip the anchors and run the matcher. -/
def regexIsMatch (pat s : List Char) : Bool :=
  matchToks (lexPattern ((pat.drop 1).dropLast)) s

/-- `constants.rs::HttpMethod`. -/
inductive HttpMethod where
  | GET | POST | PUT | DELETE | HEAD | OPTIONS | CONNECT | TRACE | PATCH
  | OTHER (s : List Char)
deriving DecidableEq, Repr

/-- `constants.rs::HttpMethod::from_str`. -/
def HttpMethod.from_str (s : List Char) : HttpMethod :=
  if s = "GET".data then .GET
  else if s = "POST".data then .POST
  else if s = "PUT".data then .PUT
  else if s = "DELETE".data then .DELETE
  else if s = "HEAD".data then .HEAD
  else if s = "OPTIONS".data then .OPTIONS
  else if s = "CONNECT".data then .CONNECT
  else if s = "TRACE".data then .TRACE
  else if s = "PATCH".data then .PATCH
  else .OTHER s

/-- `request.rs::Request`. -/
structure Request where
  method : HttpMethod
  path : List Char
  headers : List (List Char × List Char)
  body : Option (List Char)
  params : List (List Char × List Char)
  query : List (List Char × List Char)
  version : List Char
deriving DecidableEq, Repr

/-- `response.rs::Response`.  The `Date` default header is computed from the
wall clock at creation, so `Response.new` takes it as an explicit argument. -/
structure Response where
  headers : List (List Char × List Char)
  body : Option (List Char)
  status_code : Nat
  status_text : List Char
  should_respond : Bool
deriving DecidableEq, Repr

/-- `response.rs::Response::new`: default headers (`content-type`, `Date`),
status 200 "OK", empty body, flag unset. -/
def Response.new (date : List Char) : Response :=
  { headers := insertKV "Date".data date
      (insertKV "content-type".data "application/json".data [])
    body := none
    status_code := 200
    status_text := "OK".data
    should_respond := false }

/-- `server.rs::Route`: compiled pattern string plus declared parameters.
The `method` field of the Rust struct is omitted: it duplicates the key of
the per-method handler table and is never read back. -/
structure Route where
  path : List Char
  params : List RouteParam
deriving DecidableEq, Repr

/-- Middleware/handler shape: the Rust functions receive the shared
`Arc<Mutex<Request>>`/`Arc<Mutex<Response>>` and mutate them; within one
connection task this is sequential state transformation. -/
def HandlerFn : Type := Request → Response → Request × Response

/-- `server.rs::RouteAndHandler`, with a numeric label `id` standing for the
identity of the registered handler function (used only to observe which
handler ran). -/
structure RouteAndHandler where
  route : Route
  id : Nat
  handler : HandlerFn

/-- Count of `/` characters in a compiled pattern: sort key (1). -/
def numSlashes (r : Route) : Nat := countSubstr ['/'] r.path

/-- The size of the `usize` machine-integer domain (64-bit target). -/
def USIZE : Nat := 2 ^ 64

/-- Wrapping `usize` subtraction: `a - b` as a release-build Rust binary
computes it, i.e. modulo `2^64` (a debug build panics when `b > a`; the
comparator below is the only place the server subtracts). -/
def wsub (a b : Nat) : Nat := (a % USIZE + (USIZE - b % USIZE)) % USIZE

/-- The "true length" of `Server::route`'s comparator: raw pattern length
minus 5 per `[^/]+` occurrence and 3 per `.+` occurrence, computed with the
`usize` arithmetic of the source (two wrapping subtractions, left to right).
When the discounts exceed the length — possible only when a pattern's
wildcard tokens outnumber its literal text, e.g. glob `"********"` — the
release build wraps to a huge value (and a debug build panics). -/
def trueLen (r : Route) : Nat :=
  wsub (wsub r.path.length (countSubstr ['[', '^', '/', ']', '+'] r.path * 5))
    (countSubstr ['.', '+'] r.path * 3)

/-- The adjusted length exactly as the claim words it — "the compiled
pattern's raw character length minus a fixed discount per wildcard token" —
read as exact integer arithmetic.  This transcribes the claim's words, to be
compared with the source-faithful `trueLen` above; the two agree whenever
the discounts do not exceed the length. -/
def claimAdjustedLen (r : Route) : Int :=
  (r.path.length : Int)
    - countSubstr ['[', '^', '/', ']', '+'] r.path * 5
    - countSubstr ['.', '+'] r.path * 3

/-- The claim's three-key "sorts strictly before or ties" relation,
transcribed with the exact-integer `claimAdjustedLen`: more slashes first;
ties by smaller adjusted length; ties by more declared parameters. -/
def claimOrderedBefore (a b : Route) : Prop :=
  numSlashes b < numSlashes a ∨
    (numSlashes a = numSlashes b ∧
      (claimAdjustedLen a < claimAdjustedLen b ∨
        (claimAdjustedLen a = claimAdjustedLen b ∧ b.params.length ≤ a.params.length)))

/-- The three-key comparator passed to `sort_by` in `Server::route`:
(1) descending `/`-count of the compiled pattern, (2) ascending adjusted
length (raw length minus 5 per `[^/]+` and 3 per `.+`), (3) descending
declared-parameter count. -/
def routeCmp (a b : RouteAndHandler) : Ordering :=
  let c1 := (compare (numSlashes a.route) (numSlashes b.route)).swap
  if c1 = .eq then
    let c2 := compare (trueLen a.route) (trueLen b.route)
    if c2 = .eq then (compare a.route.params.length b.route.params.length).swap
    else c2
  else c1

/-- Boolean `≤` of `routeCmp`: `a` may sit before `b` in the sorted list. -/
def routeLe (a b : RouteAndHandler) : Bool := !(routeCmp a b = .gt)

/-- Insert `x` into `l` before the first element `y` with `le x y`:
the insertion step of a stable insertion sort. -/
def insertSorted (le : α → α → Bool) (x : α) : List α → List α
  | [] => [x]
  | y :: ys => if le x y then x :: y :: ys else y :: insertSorted le x ys

/-- Stable insertion sort.  Rust's `Vec::sort_by` is a stable sort; for a
total preorder every stable sort computes the same list, so this is an exact
model of the `sort_by` call in `Server::route`. -/
def insertionSort (le : α → α → Bool) : List α → List α
  | [] => []
  | x :: xs => insertSorted le x (insertionSort le xs)

/-- `server.rs::Server`: middleware list plus per-method route buckets
(`HashMap<HttpMethod, Vec<RouteAndHandler>>`, modelled as a total function
with the `unwrap_or(&Vec::new())` default). -/
structure Server where
  middlewares : List HandlerFn
  handlers : HttpMethod → List RouteAndHandler

/-- `Server::new`: every method bucket starts empty. -/
def Server.new : Server := { middlewares := [], handlers := fun _ => [] }

/-- `Server::route`: normalise the pattern, extract `:name` parameters,
replace them by `*`, compile the glob, push onto the method's bucket and
re-sort the bucket with the three-key comparator (Rust's `sort_by` is a
stable sort, modelled by the stable `insertionSort` above). -/
def Server.route (srv : Server) (method : HttpMethod) (path : List Char)
    (id : Nat) (handler : HandlerFn) : Server :=
  let norm := normalise_path path
  let (params, replaced) := scanParams norm
  let compiled := glob_to_regex replaced
  let bucket := (srv.handlers method) ++ [⟨⟨compiled, params⟩, id, handler⟩]
  let sorted := insertionSort routeLe bucket
  { srv with handlers := fun m => if m = method then sorted else srv.handlers m }

/-- `Server::add_middleware`. -/
def Server.add_middleware (srv : Server) (m : HandlerFn) : Server :=
  { srv with middlewares := srv.middlewares ++ [m] }

/-- Observable dispatch event, recording the state of the request's
path-parameter mapping at the moment the middleware/handler is invoked. -/
inductive Event where
  | mw (i : Nat) (params : List (List Char × List Char))
  | handlerRun (id : Nat) (params : List (List Char × List Char))
  | responded
deriving DecidableEq, Repr

/-- Kind of an event, with the invocation-time parameters erased. -/
inductive EvKind where
  | mwK (i : Nat)
  | handlerK (id : Nat)
  | respondedK
deriving DecidableEq, Repr

/-- Projection from events to kinds. -/
def Event.kind : Event → EvKind
  | .mw i _ => .mwK i
  | .handlerRun id _ => .handlerK id
  | .responded => .respondedK

/-- Result of running the dispatch section of the per-connection task:
final request/response, whether a response was written to the socket, and
the ordered trace of invocations. -/
structure DispatchState where
  req : Request
  res : Response
  sent : Bool
  trace : List Event
deriving DecidableEq, Repr

/-- The middleware loop inside `Server::start`: run each middleware in
registration order; after each one, if the response's ready-to-send flag is
set, serialize/send and stop. `i` is the registration index of the head,
used only for the trace. -/
def runMiddlewares : List HandlerFn → Nat → Request → Response → DispatchState
  | [], _, req, res => ⟨req, res, false, []⟩
  | m :: rest, i, req, res =>
    let out := m req res
    if out.2.should_respond then
      ⟨out.1, out.2, true, [.mw i req.params, .responded]⟩
    else
      let st := runMiddlewares rest (i + 1) out.1 out.2
      ⟨st.req, st.res, st.sent, .mw i req.params :: st.trace⟩

/-- Parameter extraction of the dispatcher: for each declared parameter of
the matched route, extract the segment at its recorded position from the
request path and insert it into the request's parameter mapping (skipped
silently when extraction fails).  The Rust `if !params.is_empty()` guard is
behaviourally the identity fold on the empty list. -/
def extractAndInsert (params : List RouteParam) (reqPath : List Char)
    (m : List (List Char × List Char)) : List (List Char × List Char) :=
  params.foldl (fun acc p =>
    match extract_nth_segment_from_url reqPath p.num_slashes_before with
    | some v => insertKV p.name v acc
    | none => acc) m

/-- The per-route match block of `Server::start`: insert parameters, run the
middleware chain (short-circuiting on the flag), then the route handler
(short-circuiting on the flag). -/
def matchBlock (mws : List HandlerFn) (reqPath : List Char)
    (rh : RouteAndHandler) (req : Request) (res : Response)
    (continue_ : Request → Response → DispatchState) : DispatchState :=
  let req1 : Request := { req with params := extractAndInsert rh.route.params reqPath req.params }
  let st := runMiddlewares mws 0 req1 res
  if st.sent then st
  else
    let out := rh.handler st.req st.res
    let hev := Event.handlerRun rh.id st.req.params
    if out.2.should_respond then
      ⟨out.1, out.2, true, st.trace ++ [hev, .responded]⟩
    else
      let st' := continue_ out.1 out.2
      ⟨st'.req, st'.res, st'.sent, st.trace ++ hev :: st'.trace⟩

/-- The handler loop of `Server::start`: linear scan of the method's bucket
in stored order; every route whose compiled pattern matches the request path
runs the match block; if nothing sets the flag the connection ends with no
response. `request_path` is captured once, before the loop. -/
def dispatchRoutes (mws : List HandlerFn) (reqPath : List Char) :
    List RouteAndHandler → Request → Response → DispatchState
  | [], req, res => ⟨req, res, false, []⟩
  | rh :: rest, req, res =>
    if regexIsMatch rh.route.path reqPath then
      matchBlock mws reqPath rh req res (fun q s => dispatchRoutes mws reqPath rest q s)
    else
      dispatchRoutes mws reqPath rest req res

/-- The dispatch section of the per-connection task in `Server::start`:
scan the bucket of the request's method with the request's (parse-time)
path. -/
def Server.dispatch (srv : Server) (req : Request) (res : Response) : DispatchState :=
  dispatchRoutes srv.middlewares req.path (srv.handlers req.method) req res

/-- `constants.rs::ONE_KB`. -/
def ONE_KB : Nat := 1024

/-- `constants.rs::ONE_MB`. -/
def ONE_MB : Nat := 1048576

/-- The NUL character: the zero bytes of the stack buffer in the reader
loop. -/
def nulChar : Char := Char.ofNat 0

/-- Parse-failure modes of the httparse head parser: `needMore` is
`Status::Partial` / running out of bytes, `bad` is any `httparse::Error`.
`Server::parse_request` propagates both as `Err`, and the reader loop treats
any `Err` as "incomplete request, read more". -/
inductive PErr where
  | needMore
  | bad
deriving DecidableEq, Repr

/-- httparse token characters (`tchar` of RFC 7230): letters, digits and
`! # $ % & ' * + - . ^ _ ` | ~` (listed by code point). -/
def isTokenChar (c : Char) : Bool :=
  c.isAlphanum ||
    [33, 35, 36, 37, 38, 39, 42, 43, 45, 46, 94, 95, 96, 124, 126].contains c.toNat

/-- httparse request-target characters: visible ASCII.  NUL, controls and
space are invalid. -/
def isUriChar (c : Char) : Bool := 33 ≤ c.toNat && c.toNat ≤ 126

/-- httparse header-value characters: horizontal tab and everything from
space upwards except DEL.  NUL is invalid. -/
def isValueChar (c : Char) : Bool :=
  c.toNat = 9 || (32 ≤ c.toNat && !(c.toNat = 127))

/-- Maximal run of `valid` characters, at least one required.  Running out
of input mid-token is `needMore`; an empty run is `bad`. -/
def pToken (valid : Char → Bool) : List Char → Except PErr (List Char × List Char)
  | [] => .error .needMore
  | c :: rest =>
    if valid c then
      match pToken valid rest with
      | .ok (run, r) => .ok (c :: run, r)
      | .error .needMore => .error .needMore
      | .error .bad => .error .bad
    else
      .ok ([], c :: rest)

/-- One-or-more token with a caller-side nonemptiness check. -/
def pToken1 (valid : Char → Bool) (s : List Char) : Except PErr (List Char × List Char) :=
  match pToken valid s with
  | .ok ([], _) => .error .bad
  | .ok (run, r) => .ok (run, r)
  | .error e => .error e

/-- Expect one specific character. -/
def expectChar (c : Char) : List Char → Except PErr (List Char)
  | [] => .error .needMore
  | x :: rest => if x = c then .ok rest else .error .bad

/-- httparse newline: `\r\n` or a bare `\n`. -/
def parseNewline : List Char → Except PErr (List Char)
  | [] => .error .needMore
  | '\r' :: rest =>
    match rest with
    | [] => .error .needMore
    | '\n' :: r => .ok r
    | _ => .error .bad
  | '\n' :: rest => .ok rest
  | _ => .error .bad

/-- Header value: maximal run of value characters, stopping at CR/LF;
any other character is invalid, running out of bytes is `needMore`. -/
def takeValue : List Char → Except PErr (List Char × List Char)
  | [] => .error .needMore
  | c :: rest =>
    if c = '\r' || c = '\n' then .ok ([], c :: rest)
    else if isValueChar c then
      match takeValue rest with
      | .ok (run, r) => .ok (c :: run, r)
      | .error e => .error e
    else .error .bad

/-- httparse header block: up to `fuel` headers (the Rust code passes a
64-slot array, and one more header than fits is `Error::TooManyHeaders`),
terminated by an empty line. -/
def parseHeadersAux : Nat → List Char → Except PErr (List (List Char × List Char) × List Char)
  | _, [] => .error .needMore
  | fuel, c :: rest =>
    if c = '\r' then
      match rest with
      | [] => .error .needMore
      | '\n' :: r => .ok ([], r)
      | _ => .error .bad
    else if c = '\n' then .ok ([], rest)
    else
      match fuel with
      | 0 => .error .bad
      | fuel + 1 => do
        let (name, r1) ← pToken1 isTokenChar (c :: rest)
        let r2 ← expectChar ':' r1
        let r3 := r2.dropWhile (fun ch => ch = ' ' || ch = '\t')
        let (value, r4) ← takeValue r3
        let r5 ← parseNewline r4
        let (hs, r6) ← parseHeadersAux fuel r5
        return ((name, value) :: hs, r6)

/-- httparse `skip_empty_lines`: leading `\r\n` / `\n` pairs before the
request line are ignored. -/
def skipEmptyLines : List Char → List Char
  | '\r' :: '\n' :: rest => skipEmptyLines rest
  | '\n' :: rest => skipEmptyLines rest
  | s => s

/-- Parsed request head: method token, request target, HTTP minor version,
headers in arrival order. -/
structure ParsedHead where
  method : List Char
  uri : List Char
  minor : Nat
  headers : List (List Char × List Char)
deriving DecidableEq, Repr

/-- httparse `Request::parse` on a byte buffer: request line
(`METHOD SP TARGET SP HTTP/1.x CRLF`), then the header block; on success the
offset just past the terminating empty line (`Status::Complete(amt)`). -/
def httparseRequest (buf : List Char) : Except PErr (ParsedHead × Nat) := do
  let s0 := skipEmptyLines buf
  let (method, r1) ← pToken1 isTokenChar s0
  let r2 ← expectChar ' ' r1
  let (uri, r3) ← pToken1 isUriChar r2
  let r4 ← expectChar ' ' r3
  let r5 ← expectChar 'H' r4
  let r6 ← expectChar 'T' r5
  let r7 ← expectChar 'T' r6
  let r8 ← expectChar 'P' r7
  let r9 ← expectChar '/' r8
  let r10 ← expectChar '1' r9
  let r11 ← expectChar '.' r10
  let (minor, r12) ←
    match r11 with
    | [] => .error PErr.needMore
    | '0' :: r => .ok (0, r)
    | '1' :: r => .ok (1, r)
    | _ => .error PErr.bad
  let r13 ← parseNewline r12
  let (headers, r14) ← parseHeadersAux 64 r13
  return (⟨method, uri, minor, headers⟩, buf.length - r14.length)

/-- Split a query string (the part after `?`) into pairs at `&` and `=`:
model of the `url` crate's `query_pairs()` on the all-ASCII,
percent-escape-free queries this server sees. -/
def splitAmpAux : List Char → List Char → List (List Char)
  | [], cur => [cur.reverse]
  | '&' :: rest, cur => cur.reverse :: splitAmpAux rest []
  | c :: rest, cur => splitAmpAux rest (c :: cur)

/-- Separate the request target into path and query mapping (last value wins
on duplicate keys, as collecting pairs into a `HashMap` does). -/
def splitQuery (uri : List Char) : List Char × List (List Char × List Char) :=
  let p := uri.takeWhile (fun c => !(c = '?'))
  let rest := uri.dropWhile (fun c => !(c = '?'))
  let pieces := (splitAmpAux (rest.drop 1) []).filter (fun piece => !(piece = []))
  let pairs := pieces.map (fun piece =>
    (piece.takeWhile (fun c => !(c = '=')), (piece.dropWhile (fun c => !(c = '='))).drop 1))
  (p, pairs.foldl (fun m kv => insertKV kv.1 kv.2 m) [])

/-- `Server::parse_request`: run the httparse head parser; the body is all
buffer bytes past the head (`None` when the head consumed the whole buffer);
split path from query, normalise the path; headers collected into a map;
the parameter map starts empty.  Both parse failure and incompleteness are
`none` (the caller treats every non-`Ok` as "incomplete"). -/
def parse_request (buffer : List Char) : Option Request :=
  match httparseRequest buffer with
  | .error _ => none
  | .ok (h, amt) =>
    let body := if amt < buffer.length then some (buffer.drop amt) else none
    let (rawPath, query) := splitQuery h.uri
    some
      { method := HttpMethod.from_str h.method
        path := normalise_path rawPath
        headers := h.headers.foldl (fun m kv => insertKV kv.1 kv.2 m) []
        body := body
        params := []
        query := query
        version := (Nat.repr h.minor).data }

/-- One socket read in `Server::start`: the 8 KiB stack buffer is zeroed,
the read fills its first `chunk.length` bytes, and the **whole** buffer is
appended to the accumulated data. -/
def padChunk (chunk : List Char) : List Char :=
  chunk ++ List.replicate (ONE_KB * 8 - chunk.length) nulChar

/-- Outcome of the reader loop of a connection task. -/
inductive ReadOutcome where
  | eofAbort
  | sizeAbort
  | parsed (r : Request)
  | starved
deriving DecidableEq, Repr

/-- One iteration of the reader loop: append the padded chunk, abort on a
zero-byte read, abort when the accumulated data exceeds `ONE_MB`, otherwise
attempt a parse. -/
inductive StepRes where
  | eofAbort
  | sizeAbort
  | done (r : Request)
  | more (acc : List Char)
deriving DecidableEq, Repr

/-- The body of the reader loop in `Server::start`, for one read returning
`chunk` (the bytes actually received, `≤ 8192` of them). -/
def readStep (acc chunk : List Char) : StepRes :=
  let acc' := acc ++ padChunk chunk
  if chunk.length = 0 then .eofAbort
  else if ONE_MB < acc'.length then .sizeAbort
  else
    match parse_request acc' with
    | some r => .done r
    | none => .more acc'

/-- The reader loop over a schedule of socket reads.  `starved` models a
connection that stops sending without closing: the task would block in
`stream.read` forever. -/
def readLoop : List (List Char) → List Char → ReadOutcome
  | [], _ => .starved
  | chunk :: rest, acc =>
    match readStep acc chunk with
    | .eofAbort => .eofAbort
    | .sizeAbort => .sizeAbort
    | .done r => .parsed r
    | .more acc' => readLoop rest acc'

/-- Accumulated buffer after a schedule of reads, regardless of outcome. -/
def accAfter (chunks : List (List Char)) : List Char :=
  chunks.foldl (fun a c => a ++ padChunk c) []

/-- Whether a read outcome reached a parsed request. -/
def readOutcomeOk : ReadOutcome → Bool
  | .parsed _ => true
  | _ => false

/-- The whole connection task: read until parse/abort, then dispatch; the
result is `some` final response exactly when response bytes were written to
the socket, `none` when the connection closes silently. -/
def handleConnection (srv : Server) (date : List Char) (reads : List (List Char)) :
    Option Response :=
  match readLoop reads [] with
  | .parsed req =>
    let st := srv.dispatch req (Response.new date)
    if st.sent then some st.res else none
  | _ => none

/-- `str::trim_matches(char::from(0))`: remove NUL characters from both ends
of a string. -/
def trimNulEnds (b : List Char) : List Char :=
  ((b.dropWhile (fun c => c = nulChar)).reverse.dropWhile (fun c => c = nulChar)).reverse

/-- `request.rs::Request::get_body_as_string`: decode the body (empty when
absent) and trim NUL characters from both ends (`trim_matches(char::from(0))`). -/
def get_body_as_string (r : Request) : List Char :=
  trimNulEnds (r.body.getD [])

/-- A single registration call, for describing servers built by a sequence
of `Server::route` calls. -/
structure Registration where
  method : HttpMethod
  path : List Char
  id : Nat
  handler : HandlerFn

/-- A server built by a sequence of `route` registrations from
`Server::new`. -/
def buildServer (regs : List Registration) : Server :=
  regs.foldl (fun s r => s.route r.method r.path r.id r.handler) Server.new

/-- A handler/middleware that sets the ready-to-send flag
(`response.send()`) and changes nothing else. -/
def sendHandler : HandlerFn := fun q s => (q, { s with should_respond := true })

/-- A handler/middleware that does nothing. -/
def identHandler : HandlerFn := fun q s => (q, s)

/-- A GET request with the given (already normalised) path and no other
content, as the dispatcher receives it from the parser. -/
def mkGetRequest (path : List Char) : Request :=
  ⟨.GET, path, [], none, [], [], ['1']⟩

/-- C1 scenario: GET `"/:id"` (handler 1) and GET `"/**"` (handler 2), both
handlers responding. -/
def twoRouteServer : Server :=
  (Server.new.route .GET "/:id".data 1 sendHandler).route .GET "/**".data 2 sendHandler

/-- C8 scenario: GET `"/users/:id"` with a responding handler. -/
def usersServer : Server :=
  Server.new.route .GET "/users/:id".data 1 sendHandler

/-- C3/C4 scenario: GET `"/users/:id"` with a do-nothing handler and one
do-nothing global middleware. -/
def usersMwServer : Server :=
  { (Server.new.route .GET "/users/:id".data 1 identHandler) with middlewares := [identHandler] }

/-- A complete well-formed request head, delivered in one socket read. -/
def oneReadHead : List Char := "GET / HTTP/1.1\r\nHost: x\r\n\r\n".data

/-- The same head split mid-header-name: first read. -/
def splitHeadA : List Char := "GET / HTTP/1.1\r\nHo".data

/-- The same head split mid-header-name: second read. -/
def splitHeadB : List Char := "st: x\r\n\r\n".data

end PortfolioBackend

namespace PortfolioBackend

theorem routeLe_iff (a b : RouteAndHandler) :
    routeLe a b = true ↔
      (numSlashes b.route < numSlashes a.route ∨
        (numSlashes a.route = numSlashes b.route ∧
          (trueLen a.route < trueLen b.route ∨
            (trueLen a.route = trueLen b.route ∧
              b.route.params.length ≤ a.route.params.length)))) := by
  simp only [routeLe, routeCmp]
  rcases h1 : compare (numSlashes a.route) (numSlashes b.route) with _ | _ | _
  · rw [Nat.compare_eq_lt] at h1
    simp [Ordering.swap]
    omega
  · rw [Nat.compare_eq_eq] at h1
    rcases h2 : compare (trueLen a.route) (trueLen b.route) with _ | _ | _
    · rw [Nat.compare_eq_lt] at h2
      simp [Ordering.swap]
      omega
    · rw [Nat.compare_eq_eq] at h2
      rcases h3 : compare a.route.params.length b.route.params.length with _ | _ | _
      · rw [Nat.compare_eq_lt] at h3
        simp [Ordering.swap]
        omega
      · rw [Nat.compare_eq_eq] at h3
        simp [Ordering.swap]
        omega
      · rw [Nat.compare_eq_gt] at h3
        simp [Ordering.swap]
        omega
    · rw [Nat.compare_eq_gt] at h2
      simp [Ordering.swap]
      omega
  · rw [Nat.compare_eq_gt] at h1
    simp [Ordering.swap]
    omega

theorem routeLe_total (a b : RouteAndHandler) : routeLe a b = true ∨ routeLe b a = true := by
  rw [routeLe_iff, routeLe_iff]
  omega

theorem routeLe_trans {a b c : RouteAndHandler} (h1 : routeLe a b = true)
    (h2 : routeLe b c = true) : routeLe a c = true := by
  rw [routeLe_iff] at h1 h2 ⊢
  omega

theorem mem_insertSorted {le : α → α → Bool} {x z : α} {l : List α} :
    z ∈ insertSorted le x l ↔ z = x ∨ z ∈ l := by
  induction l with
  | nil => simp [insertSorted]
  | cons y ys ih =>
    simp only [insertSorted]
    by_cases hxy : le x y = true
    · simp only [if_pos hxy, List.mem_cons]
    · simp only [if_neg hxy, List.mem_cons, ih]
      tauto

theorem pairwise_insertSorted {le : α → α → Bool}
    (total : ∀ a b, le a b = true ∨ le b a = true)
    (trans : ∀ a b c, le a b = true → le b c = true → le a c = true)
    (x : α) {l : List α} (h : l.Pairwise (fun a b => le a b = true)) :
    (insertSorted le x l).Pairwise (fun a b => le a b = true) := by
  induction l with
  | nil => simp [insertSorted]
  | cons y ys ih =>
    rcases List.pairwise_cons.mp h with ⟨hy, hys⟩
    simp only [insertSorted]
    by_cases hxy : le x y = true
    · rw [if_pos hxy]
      refine List.pairwise_cons.mpr ⟨?_, h⟩
      intro z hz
      rcases List.mem_cons.mp hz with hzx | hz'
      · rw [hzx]
        exact hxy
      · exact trans x y z hxy (hy z hz')
    · rw [if_neg hxy]
      refine List.pairwise_cons.mpr ⟨?_, ih hys⟩
      intro z hz
      rcases mem_insertSorted.mp hz with hzx | hz'
      · rw [hzx]
        rcases total x y with h' | h'
        · exact absurd h' hxy
        · exact h'
      · exact hy z hz'

theorem pairwise_insertionSort {le : α → α → Bool}
    (total : ∀ a b, le a b = true ∨ le b a = true)
    (trans : ∀ a b c, le a b = true → le b c = true → le a c = true)
    (l : List α) : (insertionSort le l).Pairwise (fun a b => le a b = true) := by
  induction l with
  | nil => simp [insertionSort]
  | cons x xs ih => exact pairwise_insertSorted total trans x ih

theorem buildServer_pairwise (regs : List Registration) (m : HttpMethod) :
    ((buildServer regs).handlers m).Pairwise (fun a b => routeLe a b = true) := by
  suffices h : ∀ (s : Server),
      (∀ m', ((s.handlers m').Pairwise (fun a b => routeLe a b = true))) →
      ∀ m', ((regs.foldl (fun s r => s.route r.method r.path r.id r.handler) s).handlers m').Pairwise
        (fun a b => routeLe a b = true) by
    exact h Server.new (by intro m'; simp [Server.new]) m
  induction regs with
  | nil => intro s hs m'; exact hs m'
  | cons r rs ih =>
    intro s hs m'
    refine ih _ ?_ m'
    intro m''
    simp only [Server.route]
    by_cases hm : m'' = r.method
    · rw [if_pos hm]
      exact pairwise_insertionSort routeLe_total (fun a b c h1 h2 => routeLe_trans h1 h2) _
    · rw [if_neg hm]
      exact hs m''

end PortfolioBackend

namespace PortfolioBackend

theorem length_padChunk {chunk : List Char} (h : chunk.length ≤ ONE_KB * 8) :
    (padChunk chunk).length = ONE_KB * 8 := by
  simp [padChunk, List.length_append, List.length_replicate, ONE_KB]
  simp [ONE_KB] at h
  omega

theorem readStep_not_abort {acc chunk : List Char} (hne : chunk ≠ [])
    (hlen : (acc ++ padChunk chunk).length ≤ ONE_MB) :
    readStep acc chunk ≠ .eofAbort ∧ readStep acc chunk ≠ .sizeAbort := by
  unfold readStep
  rw [if_neg (by simpa [List.length_eq_zero] using hne), if_neg (by omega)]
  constructor <;> (cases hp : parse_request (acc ++ padChunk chunk) <;> simp)

theorem readStep_sizeAbort {acc chunk : List Char} (hne : chunk ≠ [])
    (hlen : ONE_MB < (acc ++ padChunk chunk).length) :
    readStep acc chunk = .sizeAbort := by
  unfold readStep
  rw [if_neg (by simpa [List.length_eq_zero] using hne), if_pos (by omega)]

theorem readLoop_sizeAbort {acc chunk : List Char} (rest : List (List Char))
    (hne : chunk ≠ []) (hlen : ONE_MB < (acc ++ padChunk chunk).length) :
    readLoop (chunk :: rest) acc = .sizeAbort := by
  rw [readLoop, readStep_sizeAbort hne hlen]

theorem handleConnection_none_of_not_parsed {srv : Server} {date : List Char}
    {reads : List (List Char)} (h : ∀ r, readLoop reads [] ≠ .parsed r) :
    handleConnection srv date reads = none := by
  unfold handleConnection
  cases ho : readLoop reads [] with
  | parsed r => exact absurd ho (h r)
  | eofAbort => rfl
  | sizeAbort => rfl
  | starved => rfl

theorem readStep_more_append {acc chunk acc' : List Char}
    (h : readStep acc chunk = .more acc') : acc' = acc ++ padChunk chunk := by
  unfold readStep at h
  by_cases h0 : chunk.length = 0
  · rw [if_pos h0] at h
    exact absurd h (by simp)
  · rw [if_neg h0] at h
    by_cases h1 : ONE_MB < (acc ++ padChunk chunk).length
    · rw [if_pos h1] at h
      exact absurd h (by simp)
    · rw [if_neg h1] at h
      cases hp : parse_request (acc ++ padChunk chunk) with
      | some r => rw [hp] at h; exact absurd h (by simp)
      | none => rw [hp] at h; cases h; rfl

theorem accAfter_length {chunks : List (List Char)}
    (h : ∀ c ∈ chunks, c.length ≤ ONE_KB * 8) :
    (accAfter chunks).length = (ONE_KB * 8) * chunks.length := by
  suffices hs : ∀ (a : List Char),
      (chunks.foldl (fun a c => a ++ padChunk c) a).length
        = a.length + (ONE_KB * 8) * chunks.length by
    simpa [accAfter] using hs []
  induction chunks with
  | nil => intro a; simp
  | cons c cs ih =>
    intro a
    simp only [List.foldl_cons]
    rw [ih (fun x hx => h x (by simp [hx])), List.length_append,
      length_padChunk (h c (by simp))]
    simp [List.length_cons]
    ring
  
end PortfolioBackend

namespace PortfolioBackend

theorem runMiddlewares_no_flag {mws : List HandlerFn}
    (hpres : ∀ m ∈ mws, ∀ q s, s.should_respond = false → ((m q s).2).should_respond = false) :
    ∀ {i : Nat} {req : Request} {res : Response}, res.should_respond = false →
    (runMiddlewares mws i req res).sent = false ∧
    ((runMiddlewares mws i req res).res).should_respond = false ∧
    ((runMiddlewares mws i req res).trace).map Event.kind
      = (List.range' i mws.length).map EvKind.mwK := by
  induction mws with
  | nil =>
    intro i req res hres
    simp [runMiddlewares, hres]
  | cons m rest ih =>
    intro i req res hres
    have hm : ((m req res).2).should_respond = false := hpres m (by simp) req res hres
    simp only [runMiddlewares]
    rw [if_neg (by simp [hm])]
    obtain ⟨h1, h2, h3⟩ := ih (fun m' hm' => hpres m' (by simp [hm'])) hm
    refine ⟨by simpa using h1, by simpa using h2, ?_⟩
    simp only [List.length_cons, List.range'_succ, List.map_cons, Event.kind]
    exact congrArg _ (by simpa using h3)

theorem runMiddlewares_no_handler_event {mws : List HandlerFn} :
    ∀ {i : Nat} {req : Request} {res : Response},
    ∀ e ∈ (runMiddlewares mws i req res).trace, ∀ hid pp, e ≠ Event.handlerRun hid pp := by
  induction mws with
  | nil =>
    intro i req res e he
    simp [runMiddlewares] at he
  | cons m rest ih =>
    intro i req res e he hid pp
    simp only [runMiddlewares] at he
    by_cases hf : ((m req res).2).should_respond = true
    · rw [if_pos (by simp [hf])] at he
      simp at he
      rcases he with he | he <;> simp [he]
    · rw [if_neg (by simp at hf ⊢; exact hf)] at he
      simp at he
      rcases he with he | he
      · simp [he]
      · exact ih e he hid pp

theorem runMiddlewares_always_flag {mws : List HandlerFn}
    (H : ∃ m ∈ mws, ∀ q s, ((m q s).2).should_respond = true) :
    ∀ {i : Nat} {req : Request} {res : Response},
    (runMiddlewares mws i req res).sent = true ∧
    ∃ j < mws.length, ((runMiddlewares mws i req res).trace).map Event.kind
      = (List.range' i (j + 1)).map EvKind.mwK ++ [EvKind.respondedK] := by
  induction mws with
  | nil => simp at H
  | cons m rest ih =>
    intro i req res
    by_cases hf : ((m req res).2).should_respond = true
    · simp only [runMiddlewares]
      rw [if_pos (by simp [hf])]
      exact ⟨rfl, 0, by simp, by simp [List.range'_succ, Event.kind]⟩
    · have H' : ∃ m' ∈ rest, ∀ q s, ((m' q s).2).should_respond = true := by
        rcases H with ⟨m', hm', hall⟩
        rcases List.mem_cons.mp hm' with rfl | hm''
        · exact absurd (hall req res) hf
        · exact ⟨m', hm'', hall⟩
      simp only [runMiddlewares]
      rw [if_neg (by simp at hf ⊢; exact hf)]
      obtain ⟨h1, j, hj, htr⟩ := @ih H' (i + 1) (m req res).1 (m req res).2
      refine ⟨by simpa using h1, j + 1, by simpa using Nat.succ_lt_succ hj, ?_⟩
      simp only [List.map_cons, Event.kind]
      rw [List.range'_succ]
      simp only [List.map_cons, List.cons_append]
      exact congrArg _ (by simpa using htr)

end PortfolioBackend

namespace PortfolioBackend

theorem dispatchRoutes_no_match {mws : List HandlerFn} {reqPath : List Char}
    {routes : List RouteAndHandler} {req : Request} {res : Response}
    (h : ∀ rh ∈ routes, regexIsMatch rh.route.path reqPath = false) :
    dispatchRoutes mws reqPath routes req res = ⟨req, res, false, []⟩ := by
  induction routes with
  | nil => rfl
  | cons rh rest ih =>
    simp only [dispatchRoutes]
    rw [if_neg (by simp [h rh (by simp)]), ih (fun r hr => h r (by simp [hr]))]

theorem dispatchRoutes_first_match {reqPath : List Char}
    {routes : List RouteAndHandler} {rh : RouteAndHandler}
    (h : routes.find? (fun r => regexIsMatch r.route.path reqPath) = some rh) :
    ∃ rest, ∀ (mws : List HandlerFn) (req : Request) (res : Response),
      dispatchRoutes mws reqPath routes req res
        = matchBlock mws reqPath rh req res
            (fun q s => dispatchRoutes mws reqPath rest q s) := by
  induction routes with
  | nil => simp at h
  | cons r rest ih =>
    by_cases hm : regexIsMatch r.route.path reqPath = true
    · rw [List.find?_cons_of_pos _ (by simpa using hm)] at h
      cases h
      exact ⟨rest, fun mws req res => by simp only [dispatchRoutes, if_pos hm]⟩
    · rw [List.find?_cons_of_neg _ (by simpa using hm)] at h
      obtain ⟨rest', hrest⟩ := ih h
      refine ⟨rest', fun mws req res => ?_⟩
      simp only [dispatchRoutes]
      rw [if_neg (by simpa using hm), hrest]

theorem matchBlock_trace_no_handler_of_always {mws : List HandlerFn}
    (H : ∃ m ∈ mws, ∀ q s, ((m q s).2).should_respond = true)
    {reqPath : List Char} {rh : RouteAndHandler} {req : Request} {res : Response}
    {cont : Request → Response → DispatchState} :
    matchBlock mws reqPath rh req res cont
      = runMiddlewares mws 0
          { req with params := extractAndInsert rh.route.params reqPath req.params } res := by
  unfold matchBlock
  rw [if_pos (runMiddlewares_always_flag H).1]

theorem dispatchRoutes_no_handler_of_always {mws : List HandlerFn}
    (H : ∃ m ∈ mws, ∀ q s, ((m q s).2).should_respond = true)
    {reqPath : List Char} {routes : List RouteAndHandler} :
    ∀ {req : Request} {res : Response},
    ∀ e ∈ (dispatchRoutes mws reqPath routes req res).trace,
      ∀ hid pp, e ≠ Event.handlerRun hid pp := by
  induction routes with
  | nil =>
    intro req res e he
    simp [dispatchRoutes] at he
  | cons rh rest ih =>
    intro req res e he hid pp
    simp only [dispatchRoutes] at he
    by_cases hm : regexIsMatch rh.route.path reqPath = true
    · rw [if_pos hm, matchBlock_trace_no_handler_of_always H] at he
      exact runMiddlewares_no_handler_event e he hid pp
    · rw [if_neg (by simpa using hm)] at he
      exact ih e he hid pp

end PortfolioBackend

namespace PortfolioBackend

theorem parse_request_body {buf : List Char} {r : Request} {b : List Char}
    (hp : parse_request buf = some r) (hb : r.body = some b) :
    ∃ amt, amt < buf.length ∧ b = buf.drop amt := by
  unfold parse_request at hp
  cases hh : httparseRequest buf with
  | error e => rw [hh] at hp; exact absurd hp (by simp)
  | ok v =>
    rw [hh] at hp
    obtain ⟨h, amt⟩ := v
    simp only [Option.some.injEq] at hp
    subst hp
    simp only at hb
    by_cases hlt : amt < buf.length
    · rw [if_pos hlt] at hb
      cases hb
      exact ⟨amt, hlt, rfl⟩
    · rw [if_neg hlt] at hb
      exact absurd hb (by simp)

theorem body_trailing_nul {buf : List Char} {r : Request} {b : List Char}
    (hp : parse_request buf = some r) (hb : r.body = some b)
    (hlast : buf.getLast? = some nulChar) : b ≠ [] ∧ b.getLast? = some nulChar := by
  obtain ⟨amt, hlt, rfl⟩ := parse_request_body hp hb
  constructor
  · intro hnil
    have hlenz := congrArg List.length hnil
    simp only [List.length_drop, List.length_nil] at hlenz
    omega
  · rw [List.getLast?_drop, if_neg (by omega)]
    exact hlast

theorem padChunk_getLast {chunk : List Char} (h : chunk.length < ONE_KB * 8) :
    (padChunk chunk).getLast? = some nulChar := by
  unfold padChunk
  rw [List.getLast?_append, List.getLast?_replicate, if_neg (by omega)]
  rfl

theorem trimNulEnds_pad (d : List Char) (k : Nat) :
    trimNulEnds (d ++ List.replicate k nulChar) = trimNulEnds d := by
  unfold trimNulEnds
  rw [List.dropWhile_append]
  by_cases hd : (d.dropWhile (fun c => c = nulChar)).isEmpty
  · rw [if_pos hd, List.dropWhile_replicate, if_pos (by simp)]
    rw [List.isEmpty_iff] at hd
    rw [hd]
  · rw [if_neg hd, List.reverse_append, List.reverse_replicate,
      List.dropWhile_append, List.dropWhile_replicate, if_pos (by simp)]

end PortfolioBackend

namespace PortfolioBackend

theorem runMiddlewares_trace_head (m : HandlerFn) (ms : List HandlerFn)
    (i : Nat) (req : Request) (res : Response) :
    (runMiddlewares (m :: ms) i req res).trace.head? = some (.mw i req.params) := by
  simp only [runMiddlewares]
  by_cases hf : ((m req res).2).should_respond = true
  · rw [if_pos (by simp [hf])]
    rfl
  · rw [if_neg (by simp at hf ⊢; exact hf)]
    rfl

theorem matchBlock_trace_head_mw (m : HandlerFn) (ms : List HandlerFn)
    {reqPath : List Char} {rh : RouteAndHandler} {req : Request} {res : Response}
    {cont : Request → Response → DispatchState} :
    (matchBlock (m :: ms) reqPath rh req res cont).trace.head?
      = some (.mw 0 (extractAndInsert rh.route.params reqPath req.params)) := by
  unfold matchBlock
  simp only []
  set req1 : Request := { req with params := extractAndInsert rh.route.params reqPath req.params }
    with hreq1
  set st := runMiddlewares (m :: ms) 0 req1 res with hst
  have hh : st.trace.head? = some (.mw 0 (extractAndInsert rh.route.params reqPath req.params)) :=
    runMiddlewares_trace_head m ms 0 req1 res
  by_cases hs : st.sent
  · rw [if_pos hs]
    exact hh
  · rw [if_neg hs]
    by_cases hr : ((rh.handler st.req st.res).2).should_respond
    · rw [if_pos hr]
      dsimp only
      rw [List.head?_append, hh]
      rfl
    · rw [if_neg hr]
      dsimp only
      rw [List.head?_append, hh]
      rfl

theorem matchBlock_trace_head_handler
    {reqPath : List Char} {rh : RouteAndHandler} {req : Request} {res : Response}
    {cont : Request → Response → DispatchState} :
    (matchBlock [] reqPath rh req res cont).trace.head?
      = some (.handlerRun rh.id (extractAndInsert rh.route.params reqPath req.params)) := by
  unfold matchBlock
  simp only [runMiddlewares]
  by_cases hr : ((rh.handler
      { req with params := extractAndInsert rh.route.params reqPath req.params } res).2).should_respond
  · rw [if_pos hr]
    rfl
  · rw [if_neg hr]
    rfl

end PortfolioBackend

namespace PortfolioBackend

theorem matchBlock_trace_shape_no_flag {mws : List HandlerFn}
    (hpres : ∀ m ∈ mws, ∀ q s, s.should_respond = false → ((m q s).2).should_respond = false)
    {reqPath : List Char} {rh : RouteAndHandler} {req : Request} {res : Response}
    {cont : Request → Response → DispatchState} (hres : res.should_respond = false) :
    ∃ tail, (matchBlock mws reqPath rh req res cont).trace.map Event.kind
      = (List.range mws.length).map EvKind.mwK ++ EvKind.handlerK rh.id :: tail := by
  unfold matchBlock
  simp only []
  set req1 : Request := { req with params := extractAndInsert rh.route.params reqPath req.params }
    with hreq1
  set st := runMiddlewares mws 0 req1 res with hst
  obtain ⟨h1, h2, h3⟩ :=
    @runMiddlewares_no_flag mws hpres 0 req1 res hres
  rw [if_neg (by rw [← hst] at h1; simp [h1])]
  rw [← hst] at h3
  by_cases hr : ((rh.handler st.req st.res).2).should_respond
  · rw [if_pos hr]
    dsimp only
    refine ⟨[EvKind.respondedK], ?_⟩
    rw [List.map_append, h3, List.range_eq_range']
    rfl
  · rw [if_neg hr]
    dsimp only
    refine ⟨((cont (rh.handler st.req st.res).1 (rh.handler st.req st.res).2).trace).map Event.kind, ?_⟩
    rw [List.map_append, h3, List.range_eq_range']
    rfl

theorem dispatch_always_flag_shape {mws : List HandlerFn}
    (H : ∃ m ∈ mws, ∀ q s, ((m q s).2).should_respond = true)
    {reqPath : List Char} {routes : List RouteAndHandler} {rh : RouteAndHandler}
    {req : Request} {res : Response}
    (hf : routes.find? (fun r => regexIsMatch r.route.path reqPath) = some rh) :
    (dispatchRoutes mws reqPath routes req res).sent = true ∧
    ∃ j < mws.length, ((dispatchRoutes mws reqPath routes req res).trace).map Event.kind
      = (List.range (j + 1)).map EvKind.mwK ++ [EvKind.respondedK] := by
  obtain ⟨rest, heq⟩ := dispatchRoutes_first_match hf
  rw [heq mws req res, matchBlock_trace_no_handler_of_always H]
  obtain ⟨h1, j, hj, htr⟩ := @runMiddlewares_always_flag mws H 0
    { req with params := extractAndInsert rh.route.params reqPath req.params } res
  exact ⟨h1, j, hj, by rw [htr, List.range_eq_range']⟩

end PortfolioBackend

namespace PortfolioBackend

theorem matchToks_anyPlus_slash {s : List Char} (hne : s ≠ []) (hnl : '\n' ∉ s) :
    matchToks [RTok.anyPlus, RTok.lit '/'] (s ++ ['/']) = true := by
  induction s with
  | nil => exact absurd rfl hne
  | cons c cs ih =>
    simp only [List.cons_append, matchToks]
    have hc : ¬(c = '\n') := fun h => hnl (by simp [h])
    rw [Bool.and_eq_true, Bool.or_eq_true]
    refine ⟨by simp [hc], ?_⟩
    cases cs with
    | nil =>
      left
      simp [matchToks]
    | cons d ds =>
      right
      exact ih (by simp) (fun h => hnl (by simp at h ⊢; exact Or.inr h))

theorem readStep_parse_none {acc chunk : List Char} (hne : chunk ≠ [])
    (hlen : (acc ++ padChunk chunk).length ≤ ONE_MB)
    (hp : parse_request (acc ++ padChunk chunk) = none) :
    readStep acc chunk = .more (acc ++ padChunk chunk) := by
  unfold readStep
  rw [if_neg (by simpa [List.length_eq_zero] using hne), if_neg (by omega), hp]

theorem readStep_parse_some {acc chunk : List Char} {r : Request} (hne : chunk ≠ [])
    (hlen : (acc ++ padChunk chunk).length ≤ ONE_MB)
    (hp : parse_request (acc ++ padChunk chunk) = some r) :
    readStep acc chunk = .done r := by
  unfold readStep
  rw [if_neg (by simpa [List.length_eq_zero] using hne), if_neg (by omega), hp]

end PortfolioBackend

namespace PortfolioBackend

/-- C1 scenario registered in the opposite order: GET `"/**"` (handler 2)
first, then GET `"/:id"` (handler 1). -/
def twoRouteServerRev : Server :=
  (Server.new.route .GET "/**".data 2 sendHandler).route .GET "/:id".data 1 sendHandler

/-- C1: with GET `"/:id"` and GET `"/**"` both registered (in either order),
a request for `"/42/"` matches both compiled patterns, but the sorted bucket
puts `"/:id"` first and the dispatcher serves the request with handler 1;
the catch-all handler 2 never runs. -/
theorem c1_param_route_shadows_catch_all :
    regexIsMatch (glob_to_regex (scanParams (normalise_path "/:id".data)).2) "/42/".data = true ∧
    regexIsMatch (glob_to_regex (scanParams (normalise_path "/**".data)).2) "/42/".data = true ∧
    (twoRouteServer.handlers .GET).map (fun rh => rh.id) = [1, 2] ∧
    (twoRouteServerRev.handlers .GET).map (fun rh => rh.id) = [1, 2] ∧
    (twoRouteServer.dispatch (mkGetRequest "/42/".data) (Response.new [])).trace
      = [.handlerRun 1 [("id".data, "42".data)], .responded] ∧
    (twoRouteServer.dispatch (mkGetRequest "/42/".data) (Response.new [])).sent = true := by
  refine ⟨by decide, by decide, by decide, by decide, by decide, by decide⟩

/-- C2 counterexample scenario: GET `"********"` (handler 1), whose compiled
pattern `^.+.+.+.+/$` has raw length 11 but wildcard discounts 4 × 3 = 12,
and GET `"abc"` (handler 2, compiled `^abc/$`, adjusted length 6). -/
def starAbcServer : Server :=
  (Server.new.route .GET "********".data 1 identHandler).route .GET "abc".data 2 identHandler

/-- C2 counterexample: with GET `"********"` and GET `"abc"` registered, the
stored bucket (computed with the source's wrapping `usize` subtraction, as a
release build does) is `[^abc/$, ^.+.+.+.+/$]`, because the wildcard route's
adjusted length wraps to `2^64 − 1`.  Under the claim's exact-integer reading
of "raw length minus a fixed discount per wildcard token", the wildcard route
(adjusted length −1) must sort strictly before `^abc/$` (adjusted length 6) —
so the stored list is not ordered as the claim states. -/
theorem c2_counterexample_wildcard_discount_underflow :
    (starAbcServer.handlers .GET).map (fun rh => rh.route)
      = [⟨"^abc/$".data, []⟩, ⟨"^.+.+.+.+/$".data, []⟩] ∧
    trueLen ⟨"^.+.+.+.+/$".data, []⟩ = 2 ^ 64 - 1 ∧
    claimAdjustedLen ⟨"^.+.+.+.+/$".data, []⟩ = -1 ∧
    claimOrderedBefore ⟨"^.+.+.+.+/$".data, []⟩ ⟨"^abc/$".data, []⟩ ∧
    ¬ claimOrderedBefore ⟨"^abc/$".data, []⟩ ⟨"^.+.+.+.+/$".data, []⟩ := by
  refine ⟨by decide, by decide, by decide,
    by unfold claimOrderedBefore; decide, by unfold claimOrderedBefore; decide⟩

/-- C2 (amended): after any sequence of registrations, every method's bucket
is pairwise ordered by the three-key comparator whose adjusted length is
computed with the source's wrapping `usize` subtraction (release-build
semantics; a debug build panics on registrations whose wildcard discounts
exceed the compiled length); the comparator's `≤` is exactly: more slashes
first, ties by smaller (wrapped) adjusted length, ties by more declared
parameters; and whenever the discounts do not exceed the pattern length the
wrapped adjusted length coincides with plain "raw length minus discount". -/
theorem c2_amended_route_bucket_wrapped_order :
    (∀ (regs : List Registration) (m : HttpMethod),
      ((buildServer regs).handlers m).Pairwise (fun a b => routeLe a b = true)) ∧
    (∀ a b : RouteAndHandler, routeLe a b = true ↔
      (numSlashes b.route < numSlashes a.route ∨
        (numSlashes a.route = numSlashes b.route ∧
          (trueLen a.route < trueLen b.route ∨
            (trueLen a.route = trueLen b.route ∧
              b.route.params.length ≤ a.route.params.length))))) ∧
    (∀ r : Route, r.path.length < 2 ^ 64 →
      countSubstr ['[', '^', '/', ']', '+'] r.path * 5
        + countSubstr ['.', '+'] r.path * 3 ≤ r.path.length →
      trueLen r = r.path.length
        - countSubstr ['[', '^', '/', ']', '+'] r.path * 5
        - countSubstr ['.', '+'] r.path * 3) := by
  refine ⟨buildServer_pairwise, routeLe_iff, ?_⟩
  intro r h1 h2
  simp only [trueLen, wsub, USIZE]
  omega

/-- Witness for the amended C2: the no-underflow agreement at the compiled
route `^abc/$` (length 6, discounts 0). -/
theorem c2_amended_route_bucket_wrapped_order_witness :
    (("^abc/$".data.length < 2 ^ 64) ∧
      countSubstr ['[', '^', '/', ']', '+'] "^abc/$".data * 5
        + countSubstr ['.', '+'] "^abc/$".data * 3 ≤ "^abc/$".data.length) ∧
    trueLen ⟨"^abc/$".data, []⟩ = "^abc/$".data.length
      - countSubstr ['[', '^', '/', ']', '+'] "^abc/$".data * 5
      - countSubstr ['.', '+'] "^abc/$".data * 3 ∧
    ((buildServer []).handlers .GET).Pairwise (fun a b => routeLe a b = true) := by
  refine ⟨⟨by decide, by decide⟩, ?_, ?_⟩
  · exact c2_amended_route_bucket_wrapped_order.2.2 ⟨"^abc/$".data, []⟩ (by decide) (by decide)
  · exact c2_amended_route_bucket_wrapped_order.1 [] .GET

/-- C3 counterexample: `usersMwServer` has one registered global middleware,
yet dispatching a parsed request whose path `"/x/"` matches no route produces
an empty trace: the middleware is never invoked, contradicting "invoked for
every request regardless of the request's path". -/
theorem c3_counterexample_no_match_no_middleware :
    usersMwServer.middlewares.length = 1 ∧
    (usersMwServer.dispatch (mkGetRequest "/x/".data) (Response.new [])).trace = [] := by
  exact ⟨rfl, by decide⟩

/-- C3 (amended): middleware runs only when some registered route matches the
request path: if nothing matches, nothing at all is invoked; if a route
matches (and no middleware sets the flag), every registered middleware runs
in registration order before that route's handler. -/
theorem c3_amended_middleware_only_on_match :
    (∀ (mws : List HandlerFn) (reqPath : List Char) (routes : List RouteAndHandler)
        (req : Request) (res : Response),
      (∀ rh ∈ routes, regexIsMatch rh.route.path reqPath = false) →
      dispatchRoutes mws reqPath routes req res = ⟨req, res, false, []⟩) ∧
    (∀ (mws : List HandlerFn) (reqPath : List Char) (routes : List RouteAndHandler)
        (rh : RouteAndHandler) (req : Request) (res : Response),
      routes.find? (fun r => regexIsMatch r.route.path reqPath) = some rh →
      res.should_respond = false →
      (∀ m ∈ mws, ∀ q s, s.should_respond = false → ((m q s).2).should_respond = false) →
      ∃ tail, ((dispatchRoutes mws reqPath routes req res).trace).map Event.kind
        = (List.range mws.length).map EvKind.mwK ++ EvKind.handlerK rh.id :: tail) := by
  constructor
  · intro mws reqPath routes req res h
    exact dispatchRoutes_no_match h
  · intro mws reqPath routes rh req res hf hres hpres
    obtain ⟨rest, heq⟩ := dispatchRoutes_first_match hf
    rw [heq mws req res]
    exact matchBlock_trace_shape_no_flag hpres hres

/-- The route stored by registering GET `"/users/:id"` with `identHandler`
as handler 1, written out explicitly. -/
def usersRouteEntry : RouteAndHandler :=
  ⟨⟨"^/users/[^/]+/$".data, [⟨2, "id".data⟩]⟩, 1, identHandler⟩

/-- Witness for the amended C3 at concrete inputs. -/
theorem c3_amended_middleware_only_on_match_witness :
    ((∀ rh ∈ usersMwServer.handlers .GET,
        regexIsMatch rh.route.path "/x/".data = false) ∧
      dispatchRoutes [identHandler] "/x/".data (usersMwServer.handlers .GET)
        (mkGetRequest "/x/".data) (Response.new [])
        = ⟨mkGetRequest "/x/".data, Response.new [], false, []⟩) ∧
    ((usersMwServer.handlers .GET).find?
        (fun r => regexIsMatch r.route.path "/users/42/".data) = some usersRouteEntry ∧
      (Response.new []).should_respond = false ∧
      ∃ tail, ((dispatchRoutes [identHandler] "/users/42/".data (usersMwServer.handlers .GET)
          (mkGetRequest "/users/42/".data) (Response.new [])).trace).map Event.kind
        = (List.range 1).map EvKind.mwK ++ EvKind.handlerK usersRouteEntry.id :: tail) := by
  have hlist : usersMwServer.handlers .GET = [usersRouteEntry] := rfl
  have hmatch : ∀ rh ∈ usersMwServer.handlers .GET,
      regexIsMatch rh.route.path "/x/".data = false := by
    intro rh hrh
    rw [hlist] at hrh
    rcases List.mem_singleton.mp hrh with rfl
    decide
  refine ⟨⟨hmatch, c3_amended_middleware_only_on_match.1 [identHandler] "/x/".data
      (usersMwServer.handlers .GET) (mkGetRequest "/x/".data) (Response.new []) hmatch⟩,
    rfl, rfl, ?_⟩
  have := c3_amended_middleware_only_on_match.2 [identHandler] "/users/42/".data
    (usersMwServer.handlers .GET) usersRouteEntry
    (mkGetRequest "/users/42/".data) (Response.new []) rfl rfl
    (by intro m hm q s hs; simp at hm; rw [hm]; exact hs)
  simpa using this

end PortfolioBackend

namespace PortfolioBackend

/-- C4 counterexample: dispatching `"/users/42/"` on a server with one
global middleware produces a trace whose first event is the middleware
invoked with the parameter map already equal to `id = "42"`: the matched
route's parameters are inserted before the middleware chain runs, so they
are visible to the middleware, contradicting the claim. -/
theorem c4_counterexample_middleware_sees_params :
    (usersMwServer.dispatch (mkGetRequest "/users/42/".data) (Response.new [])).trace
      = [.mw 0 [("id".data, "42".data)], .handlerRun 1 [("id".data, "42".data)]] := by
  decide

/-- C4 (amended): for every dispatched request whose path matches a route,
the dispatcher inserts the matched route's parameters before invoking
anything: the first middleware (when one exists) and the handler (when no
middleware exists) are both invoked with the already-extended parameter
map. -/
theorem c4_amended_params_inserted_before_middleware :
    (∀ (m : HandlerFn) (ms : List HandlerFn) (reqPath : List Char)
        (routes : List RouteAndHandler) (rh : RouteAndHandler)
        (req : Request) (res : Response),
      routes.find? (fun r => regexIsMatch r.route.path reqPath) = some rh →
      ((dispatchRoutes (m :: ms) reqPath routes req res).trace).head?
        = some (.mw 0 (extractAndInsert rh.route.params reqPath req.params))) ∧
    (∀ (reqPath : List Char) (routes : List RouteAndHandler) (rh : RouteAndHandler)
        (req : Request) (res : Response),
      routes.find? (fun r => regexIsMatch r.route.path reqPath) = some rh →
      ((dispatchRoutes [] reqPath routes req res).trace).head?
        = some (.handlerRun rh.id (extractAndInsert rh.route.params reqPath req.params))) := by
  constructor
  · intro m ms reqPath routes rh req res hf
    obtain ⟨rest, heq⟩ := dispatchRoutes_first_match hf
    rw [heq (m :: ms) req res]
    exact matchBlock_trace_head_mw m ms
  · intro reqPath routes rh req res hf
    obtain ⟨rest, heq⟩ := dispatchRoutes_first_match hf
    rw [heq [] req res]
    exact matchBlock_trace_head_handler

/-- Witness for the amended C4 at concrete inputs. -/
theorem c4_amended_params_inserted_before_middleware_witness :
    ((usersMwServer.handlers .GET).find?
        (fun r => regexIsMatch r.route.path "/users/42/".data) = some usersRouteEntry ∧
      ((dispatchRoutes [identHandler] "/users/42/".data (usersMwServer.handlers .GET)
          (mkGetRequest "/users/42/".data) (Response.new [])).trace).head?
        = some (.mw 0 (extractAndInsert usersRouteEntry.route.params "/users/42/".data
            (mkGetRequest "/users/42/".data).params))) ∧
    ((dispatchRoutes [] "/users/42/".data (usersMwServer.handlers .GET)
          (mkGetRequest "/users/42/".data) (Response.new [])).trace).head?
        = some (.handlerRun usersRouteEntry.id
            (extractAndInsert usersRouteEntry.route.params "/users/42/".data
              (mkGetRequest "/users/42/".data).params)) := by
  refine ⟨⟨rfl, ?_⟩, ?_⟩
  · exact c4_amended_params_inserted_before_middleware.1 identHandler [] "/users/42/".data
      (usersMwServer.handlers .GET) usersRouteEntry
      (mkGetRequest "/users/42/".data) (Response.new []) rfl
  · exact c4_amended_params_inserted_before_middleware.2 "/users/42/".data
      (usersMwServer.handlers .GET) usersRouteEntry
      (mkGetRequest "/users/42/".data) (Response.new []) rfl

/-- C7 counterexample: after registering `"/**"` the compiled pattern is
`^/.+/$`, and the non-empty path `"/"` (already in trailing-slash form, so
normalisation leaves it unchanged) does not match: `.+` needs at least one
character between the two slashes. -/
theorem c7_counterexample_root_path_unmatched :
    glob_to_regex (scanParams (normalise_path "/**".data)).2 = "^/.+/$".data ∧
    normalise_path "/".data = "/".data ∧
    regexIsMatch (glob_to_regex (scanParams (normalise_path "/**".data)).2)
      (normalise_path "/".data) = false := by
  refine ⟨by decide, by decide, by decide⟩

/-- C7 (amended): the pattern compiled from `"/**"` matches every path that
starts with `/`, ends with `/` and has at least one character in between,
none of which is a newline — in particular every multi-segment path such as
`"/a/b/c/"`. -/
theorem c7_amended_catch_all_matches (s : List Char) (hne : s ≠ []) (hnl : '\n' ∉ s) :
    regexIsMatch (glob_to_regex (scanParams (normalise_path "/**".data)).2)
      ('/' :: (s ++ ['/'])) = true := by
  have hpat : glob_to_regex (scanParams (normalise_path "/**".data)).2 = "^/.+/$".data := by
    decide
  rw [hpat]
  have hlex : lexPattern (("^/.+/$".data.drop 1).dropLast)
      = [RTok.lit '/', RTok.anyPlus, RTok.lit '/'] := by decide
  unfold regexIsMatch
  rw [hlex]
  simp only [matchToks]
  rw [Bool.and_eq_true]
  exact ⟨by decide, matchToks_anyPlus_slash hne hnl⟩

/-- Witness for the amended C7: `"/a/b/c/"`. -/
theorem c7_amended_catch_all_matches_witness :
    ("a/b/c".data ≠ [] ∧ '\n' ∉ "a/b/c".data) ∧
    ('/' :: ("a/b/c".data ++ ['/'])) = "/a/b/c/".data ∧
    regexIsMatch (glob_to_regex (scanParams (normalise_path "/**".data)).2)
      ('/' :: ("a/b/c".data ++ ['/'])) = true := by
  refine ⟨⟨by decide, by decide⟩, by decide,
    c7_amended_catch_all_matches "a/b/c".data (by decide) (by decide)⟩

/-- C8: registering GET `"/users/:id"` records parameter `id` at segment
position 2; dispatching `"/users/42/"` extracts `"42"` and inserts
`id = "42"` into the request's parameter map before the handler is invoked
(the handler-invocation event carries the already-extended map). -/
theorem c8_users_id_param_extraction :
    (scanParams (normalise_path "/users/:id".data)).1 = [⟨2, "id".data⟩] ∧
    extract_nth_segment_from_url "/users/42/".data 2 = some "42".data ∧
    (usersServer.dispatch (mkGetRequest "/users/42/".data) (Response.new [])).trace
      = [.handlerRun 1 [("id".data, "42".data)], .responded] ∧
    (usersServer.dispatch (mkGetRequest "/users/42/".data) (Response.new [])).req.params
      = [("id".data, "42".data)] := by
  refine ⟨by decide, by decide, by decide, by decide⟩

end PortfolioBackend

namespace PortfolioBackend

/-- C9: if some registered global middleware unconditionally sets the
ready-to-send flag, then (1) no route handler event ever occurs in any
dispatch trace, for any route table, path and request; and (2) whenever some
route matches, the response is sent (`sent = true`) and the trace is exactly
middleware invocations `0..j` followed immediately by the send event —
nothing (neither middleware nor handler) runs after the flag is set. -/
theorem c9_flag_setting_middleware_blocks_handlers :
    ∀ (mws : List HandlerFn),
      (∃ m ∈ mws, ∀ q s, ((m q s).2).should_respond = true) →
      (∀ (reqPath : List Char) (routes : List RouteAndHandler)
          (req : Request) (res : Response),
        ∀ e ∈ (dispatchRoutes mws reqPath routes req res).trace,
          ∀ hid pp, e ≠ Event.handlerRun hid pp) ∧
      (∀ (reqPath : List Char) (routes : List RouteAndHandler) (rh : RouteAndHandler)
          (req : Request) (res : Response),
        routes.find? (fun r => regexIsMatch r.route.path reqPath) = some rh →
        (dispatchRoutes mws reqPath routes req res).sent = true ∧
        ∃ j < mws.length, ((dispatchRoutes mws reqPath routes req res).trace).map Event.kind
          = (List.range (j + 1)).map EvKind.mwK ++ [EvKind.respondedK]) := by
  intro mws H
  exact ⟨fun reqPath routes req res e he hid pp =>
      dispatchRoutes_no_handler_of_always H e he hid pp,
    fun reqPath routes rh req res hf => dispatch_always_flag_shape H hf⟩

/-- Witness for C9 at concrete inputs: one unconditionally-sending
middleware over the `"/users/:id"` route table. -/
theorem c9_flag_setting_middleware_blocks_handlers_witness :
    (sendHandler ∈ [sendHandler] ∧
      ((sendHandler (mkGetRequest "/users/42/".data) (Response.new [])).2).should_respond = true) ∧
    ((usersServer.handlers .GET).find?
        (fun r => regexIsMatch r.route.path "/users/42/".data)
      = some ⟨⟨"^/users/[^/]+/$".data, [⟨2, "id".data⟩]⟩, 1, sendHandler⟩) ∧
    (dispatchRoutes [sendHandler] "/users/42/".data (usersServer.handlers .GET)
        (mkGetRequest "/users/42/".data) (Response.new [])).sent = true ∧
    (∃ j < ([sendHandler] : List HandlerFn).length,
      ((dispatchRoutes [sendHandler] "/users/42/".data (usersServer.handlers .GET)
          (mkGetRequest "/users/42/".data) (Response.new [])).trace).map Event.kind
        = (List.range (j + 1)).map EvKind.mwK ++ [EvKind.respondedK]) ∧
    (dispatchRoutes [sendHandler] "/users/42/".data (usersServer.handlers .GET)
        (mkGetRequest "/users/42/".data) (Response.new [])).trace
      = [.mw 0 [("id".data, "42".data)], .responded] := by
  have H : ∃ m ∈ ([sendHandler] : List HandlerFn),
      ∀ q s, ((m q s).2).should_respond = true :=
    ⟨sendHandler, List.mem_singleton.mpr rfl, fun q s => rfl⟩
  have happ := (c9_flag_setting_middleware_blocks_handlers [sendHandler] H).2
    "/users/42/".data (usersServer.handlers .GET)
    ⟨⟨"^/users/[^/]+/$".data, [⟨2, "id".data⟩]⟩, 1, sendHandler⟩
    (mkGetRequest "/users/42/".data) (Response.new []) rfl
  exact ⟨⟨List.mem_singleton.mpr rfl, rfl⟩, rfl, happ.1, happ.2, by decide⟩

end PortfolioBackend

namespace PortfolioBackend

/-- C5: a complete request head delivered in one read parses, but the same
bytes split across two reads never parse: the reader appends the whole
zero-filled 8 KiB buffer after each read, so the second fragment is
separated from the first by NUL padding inside the header block and every
subsequent parse attempt fails (here the read schedule ends and the task
would block forever; a longer schedule ends in the 1 MiB abort). -/
theorem c5_split_head_never_parses :
    splitHeadA ++ splitHeadB = oneReadHead ∧
    readOutcomeOk (readLoop [oneReadHead] []) = true ∧
    readLoop [splitHeadA, splitHeadB] [] = .starved := by
  refine ⟨by decide, ?_, ?_⟩
  · have hsome : (parse_request ([] ++ padChunk oneReadHead)).isSome = true := rfl
    have hlen : (([] : List Char) ++ padChunk oneReadHead).length ≤ ONE_MB := by
      rw [List.nil_append, length_padChunk (by decide)]
      decide
    cases hr : parse_request ([] ++ padChunk oneReadHead) with
    | none => rw [hr] at hsome; cases hsome
    | some r =>
      have hstep := readStep_parse_some (by decide) hlen hr
      simp only [readLoop]
      rw [hstep]
      rfl
  · have hp1 : parse_request ([] ++ padChunk splitHeadA) = none := by
      rw [List.nil_append]
      rfl
    have hlen1 : (([] : List Char) ++ padChunk splitHeadA).length ≤ ONE_MB := by
      rw [List.nil_append, length_padChunk (by decide)]
      decide
    have hstep1 := readStep_parse_none (by decide) hlen1 hp1
    have hp2 : parse_request (([] ++ padChunk splitHeadA) ++ padChunk splitHeadB) = none := by
      rw [List.nil_append]
      rfl
    have hlen2 : ((([] : List Char) ++ padChunk splitHeadA) ++ padChunk splitHeadB).length
        ≤ ONE_MB := by
      rw [List.length_append, List.nil_append, length_padChunk (by decide),
        length_padChunk (by decide)]
      decide
    have hstep2 := readStep_parse_none (by decide) hlen2 hp2
    simp only [readLoop]
    rw [hstep1]
    dsimp only
    rw [hstep2]

end PortfolioBackend

namespace PortfolioBackend

theorem parse_request_g_nul (t : List Char) : parse_request ('G' :: nulChar :: t) = none := rfl

theorem padChunk_g : padChunk ['G'] = 'G' :: nulChar :: List.replicate 8190 nulChar := by
  unfold padChunk
  rw [show ONE_KB * 8 - (['G'] : List Char).length = 8190 + 1 from by decide,
    List.replicate_succ]
  rfl

theorem readLoop_g_replicate : ∀ (n : Nat) (acc : List Char),
    (acc = [] ∨ ∃ t, acc = 'G' :: nulChar :: t) →
    acc.length ≤ ONE_MB → ONE_MB < acc.length + 8192 * n →
    readLoop (List.replicate n ['G']) acc = .sizeAbort := by
  intro n
  induction n with
  | zero =>
    intro acc hshape hle hgt
    omega
  | succ k ih =>
    intro acc hshape hle hgt
    rw [List.replicate_succ]
    have hlenpad : (acc ++ padChunk ['G']).length = acc.length + 8192 := by
      rw [List.length_append, length_padChunk (by decide)]
      norm_num [ONE_KB]
    by_cases hbig : ONE_MB < (acc ++ padChunk ['G']).length
    · exact readLoop_sizeAbort _ (by simp) hbig
    · have hshape' : ∃ t, acc ++ padChunk ['G'] = 'G' :: nulChar :: t := by
        rcases hshape with rfl | ⟨t, rfl⟩
        · exact ⟨List.replicate 8190 nulChar, by rw [List.nil_append, padChunk_g]⟩
        · exact ⟨t ++ padChunk ['G'], by simp⟩
      obtain ⟨t, ht⟩ := hshape'
      have hp : parse_request (acc ++ padChunk ['G']) = none := by
        rw [ht]
        exact parse_request_g_nul t
      have hstep := @readStep_parse_none acc ['G'] (by simp) (by omega) hp
      simp only [readLoop]
      rw [hstep]
      dsimp only
      exact ih (acc ++ padChunk ['G']) (Or.inr ⟨t, ht⟩) (by omega) (by omega)

/-- C6: a reader iteration whose accumulated data lands exactly on 1 MiB
neither aborts for end-of-stream nor for size — it proceeds to the parse
attempt (and to dispatch when that parse succeeds); any iteration whose
accumulated data exceeds 1 MiB aborts the connection, and a connection whose
reader aborts for size writes no response bytes at all. -/
theorem c6_one_mib_boundary :
    (∀ acc chunk : List Char, chunk ≠ [] → (acc ++ padChunk chunk).length = ONE_MB →
      readStep acc chunk ≠ .eofAbort ∧ readStep acc chunk ≠ .sizeAbort) ∧
    (∀ (acc chunk : List Char) (rest : List (List Char)), chunk ≠ [] →
      ONE_MB < (acc ++ padChunk chunk).length →
      readLoop (chunk :: rest) acc = .sizeAbort) ∧
    (∀ (srv : Server) (date : List Char) (reads : List (List Char)),
      readLoop reads [] = .sizeAbort → handleConnection srv date reads = none) := by
  refine ⟨?_, ?_, ?_⟩
  · intro acc chunk hne hlen
    exact readStep_not_abort hne (by omega)
  · intro acc chunk rest hne hlen
    exact readLoop_sizeAbort rest hne hlen
  · intro srv date reads h
    exact handleConnection_none_of_not_parsed (fun r hr => by rw [h] at hr; cases hr)

/-- Witness for C6: an accumulation of exactly `1 MiB − 8 KiB` plus one more
read lands exactly on 1 MiB and is not aborted; an accumulation already at
1 MiB plus one more read exceeds it and aborts; a schedule of 129 nonempty
reads overflows the cap and the connection produces no response. -/
theorem c6_one_mib_boundary_witness :
    ((['G'] : List Char) ≠ [] ∧
      ((List.replicate 1040384 'a' : List Char) ++ padChunk ['G']).length = ONE_MB ∧
      readStep (List.replicate 1040384 'a') ['G'] ≠ .eofAbort ∧
      readStep (List.replicate 1040384 'a') ['G'] ≠ .sizeAbort) ∧
    (ONE_MB < ((List.replicate ONE_MB 'a' : List Char) ++ padChunk ['G']).length ∧
      readLoop [['G']] (List.replicate ONE_MB 'a') = .sizeAbort) ∧
    (readLoop (List.replicate 129 ['G']) [] = .sizeAbort ∧
      handleConnection Server.new [] (List.replicate 129 ['G']) = none) := by
  have hlen1 : ((List.replicate 1040384 'a' : List Char) ++ padChunk ['G']).length = ONE_MB := by
    rw [List.length_append, List.length_replicate, length_padChunk (by decide)]
    norm_num [ONE_KB, ONE_MB]
  have hlen2 : ONE_MB < ((List.replicate ONE_MB 'a' : List Char) ++ padChunk ['G']).length := by
    rw [List.length_append, List.length_replicate, length_padChunk (by decide)]
    norm_num [ONE_KB]
  have h129 : readLoop (List.replicate 129 ['G']) [] = .sizeAbort :=
    readLoop_g_replicate 129 [] (Or.inl rfl) (by simp [ONE_MB]) (by decide)
  obtain ⟨hA, hB⟩ := c6_one_mib_boundary.1 (List.replicate 1040384 'a') ['G'] (by simp) hlen1
  refine ⟨⟨by simp, hlen1, hA, hB⟩, ⟨hlen2, ?_⟩, h129, ?_⟩
  · exact c6_one_mib_boundary.2.1 (List.replicate ONE_MB 'a') ['G'] [] (by simp) hlen2
  · exact c6_one_mib_boundary.2.2 Server.new [] (List.replicate 129 ['G']) h129

end PortfolioBackend

namespace PortfolioBackend

/-- C10: (1) every reader iteration appends exactly the full 8 KiB padded
chunk regardless of how many bytes the read returned, so the accumulated
buffer after `n` reads has length `n × 8192`; (2) a continuing iteration's
new buffer is exactly the old one plus the whole padded chunk; (3) a parsed
request whose head ends before the end of a NUL-terminated buffer has a
nonempty body ending in NUL padding; (4) any short read leaves the padded
chunk NUL-terminated; (5) `get_body_as_string` is NUL-trimming of the body;
(6) trimming removes exactly such trailing NUL padding. -/
theorem c10_full_chunk_append_and_nul_trim :
    (∀ chunks : List (List Char), (∀ c ∈ chunks, c.length ≤ ONE_KB * 8) →
      (accAfter chunks).length = (ONE_KB * 8) * chunks.length) ∧
    (∀ acc chunk acc' : List Char, readStep acc chunk = .more acc' →
      acc' = acc ++ padChunk chunk) ∧
    (∀ (buf : List Char) (r : Request) (b : List Char),
      parse_request buf = some r → r.body = some b → buf.getLast? = some nulChar →
      b ≠ [] ∧ b.getLast? = some nulChar) ∧
    (∀ chunk : List Char, chunk.length < ONE_KB * 8 →
      (padChunk chunk).getLast? = some nulChar) ∧
    (∀ r : Request, get_body_as_string r = trimNulEnds (r.body.getD [])) ∧
    (∀ (d : List Char) (k : Nat),
      trimNulEnds (d ++ List.replicate k nulChar) = trimNulEnds d) := by
  refine ⟨?_, ?_, ?_, ?_, ?_, ?_⟩
  · intro chunks h
    exact accAfter_length h
  · intro acc chunk acc' h
    exact readStep_more_append h
  · intro buf r b hp hb hl
    exact body_trailing_nul hp hb hl
  · intro chunk h
    exact padChunk_getLast h
  · intro r
    rfl
  · intro d k
    exact trimNulEnds_pad d k

/-- Witness for C10 at concrete inputs (a one-byte read; a 20-byte buffer
whose head ends at byte 18 leaving a 2-NUL body; NUL-trimming of
`"ab" ++ three NULs`). -/
theorem c10_full_chunk_append_and_nul_trim_witness :
    ((∀ c ∈ [(['G'] : List Char)], c.length ≤ ONE_KB * 8) ∧
      (accAfter [['G']]).length = (ONE_KB * 8) * ([(['G'] : List Char)]).length) ∧
    (readStep [] ['G'] = .more ([] ++ padChunk ['G']) ∧
      ([] ++ padChunk ['G'] : List Char) = [] ++ padChunk ['G']) ∧
    (parse_request ("GET / HTTP/1.1\r\n\r\n".data ++ [nulChar, nulChar])
        = some ⟨.GET, "/".data, [], some [nulChar, nulChar], [], [], "1".data⟩ ∧
      ([nulChar, nulChar] : List Char) ≠ [] ∧
      ([nulChar, nulChar] : List Char).getLast? = some nulChar) ∧
    ((['G'] : List Char).length < ONE_KB * 8 ∧
      (padChunk ['G']).getLast? = some nulChar) ∧
    get_body_as_string (mkGetRequest "/".data) = trimNulEnds ((mkGetRequest "/".data).body.getD []) ∧
    trimNulEnds ("ab".data ++ List.replicate 3 nulChar) = trimNulEnds "ab".data := by
  have hpG : parse_request ([] ++ padChunk ['G']) = none := by
    rw [List.nil_append, padChunk_g]
    exact parse_request_g_nul _
  have hlenG : (([] : List Char) ++ padChunk ['G']).length ≤ ONE_MB := by
    rw [List.nil_append, length_padChunk (by decide)]
    norm_num [ONE_KB, ONE_MB]
  have hstepG := readStep_parse_none (by decide) hlenG hpG
  have hsmall : parse_request ("GET / HTTP/1.1\r\n\r\n".data ++ [nulChar, nulChar])
      = some ⟨.GET, "/".data, [], some [nulChar, nulChar], [], [], "1".data⟩ := by decide
  refine ⟨⟨by decide, c10_full_chunk_append_and_nul_trim.1 [['G']] (by decide)⟩,
    ⟨hstepG, c10_full_chunk_append_and_nul_trim.2.1 [] ['G'] ([] ++ padChunk ['G']) hstepG⟩,
    ⟨hsmall, c10_full_chunk_append_and_nul_trim.2.2.1 _ _ [nulChar, nulChar] hsmall rfl
      (by decide)⟩,
    ⟨by decide, c10_full_chunk_append_and_nul_trim.2.2.2.1 ['G'] (by decide)⟩,
    c10_full_chunk_append_and_nul_trim.2.2.2.2.1 (mkGetRequest "/".data),
    c10_full_chunk_append_and_nul_trim.2.2.2.2.2 "ab".data 3⟩

end PortfolioBackend
